import Mathlib

/-!
# website_keyword_analysis_go: a verification development of `main.go`

The Go program reads a column of URLs from a spreadsheet, fetches every page
under a bounded number of goroutines, tests the page for a keyword and writes
the outcome in two new columns.

Conventions of the embedding.

* A Go `string` is a Lean `String`; only strings that are valid UTF-8 are
  covered, for which the byte-wise `strings.Contains` and `strings.HasPrefix`
  agree with their rune-wise counterparts used here.
* The Unicode tables of the Go standard library are not part of the
  repository: the rune map `unicode.ToLower` and the predicate
  `unicode.IsSpace` are parameters (`lower`, `isSpace`) of every function that
  needs them.
* The package variable `keywords` is passed explicitly; `keywords` below is
  its initial value.
* The network is an oracle (`Net`) giving the outcome of each step of one
  `fetchWebsite` call.
* A Go `int` is an `Int`; every value computed here is bounded by the number
  of rows of a sheet, so 64-bit overflow never occurs.
-/

namespace WebsiteKeyword

deriving instance DecidableEq for Except

/-! ## The standard-library string functions used by `main.go` -/

/-- Go `strings.ToLower` on a valid UTF-8 string: `Map(unicode.ToLower, s)`. -/
def ToLower (lower : Char → Char) (s : String) : String :=
  String.mk (s.data.map lower)

/-- Naive search behind `strings.Contains`: is `sub` a prefix of some suffix of `s`. -/
def containsChars : List Char → List Char → Bool
  | [], sub => sub.isPrefixOf []
  | c :: s, sub => sub.isPrefixOf (c :: s) || containsChars s sub

/-- Go `strings.Contains(s, substr)`. -/
def Contains (s substr : String) : Bool :=
  containsChars s.data substr.data

/-- Go `strings.HasPrefix(s, prefix)`. -/
def HasPrefix (s pre : String) : Bool :=
  pre.data.isPrefixOf s.data

/-- Go `strings.TrimSpace(s)`: drop the leading and trailing white space runes. -/
def TrimSpace (isSpace : Char → Bool) (s : String) : String :=
  String.mk ((s.data.dropWhile isSpace).reverse.dropWhile isSpace).reverse

/-- The function `unicode.ToLower` restricted to ASCII, used to evaluate examples. -/
def asciiLower (c : Char) : Char := c.toLower

/-- The function `unicode.IsSpace` restricted to ASCII, used to evaluate examples. -/
def asciiSpace (c : Char) : Bool :=
  c.toNat = 32 || (9 ≤ c.toNat && c.toNat ≤ 13)

/-! ## Data model and constants (`main.go` lines 16-30) -/

/-- The struct `WebsiteRecord`. -/
structure WebsiteRecord where
  MediaURL : String
  MatchResult : Int
  RowIndex : Int
  Error : String
  deriving DecidableEq, Repr

/-- Initial value of the package variable `keywords`. -/
def keywords : List String := ["关键词1", "关键词2"]

/-- The constant `maxConcurrent`. -/
def maxConcurrent : Nat := 5

/-- The constant `requestInterval`, one second as a `time.Duration` in nanoseconds. -/
def requestInterval : Nat := 1000000000

/-! ## `containsKeywords` (lines 231-243) -/

/-- The `for _, keyword := range keywords` loop of `containsKeywords`. -/
def containsKeywordsLoop (lower : Char → Char) (htmlLower : String) : List String → Bool
  | [] => false
  | keyword :: rest =>
    if Contains htmlLower (ToLower lower keyword) then true
    else containsKeywordsLoop lower htmlLower rest

/-- The function `containsKeywords`, with the package variable `keywords` as `kws`. -/
def containsKeywords (lower : Char → Char) (kws : List String) (html : String) : Bool :=
  let htmlLower := ToLower lower html
  containsKeywordsLoop lower htmlLower kws

/-- Substring relation on strings: `sub` occurs in `s` as a contiguous block. -/
def IsSubstring (sub s : String) : Prop :=
  ∃ before after : String, s = before ++ sub ++ after

/-! ## `fetchWebsite` (lines 179-229) -/

/-- The request target of `fetchWebsite` (lines 181-184). -/
def requestTarget (url : String) : String :=
  if !HasPrefix url "http://" && !HasPrefix url "https://" then "http://" ++ url
  else url

/-- An HTTP response, as far as `fetchWebsite` reads it. -/
structure Response where
  StatusCode : Int
  Body : String
  deriving DecidableEq, Repr

/-- Outcome of every library call of one `fetchWebsite` call: an error message or a value.
`NewRequest` is `http.NewRequestWithContext` (only its error matters), `Do` is `client.Do`,
`NewDocument` is `goquery.NewDocumentFromReader` on the response body and `Html` is
`doc.Html()` on the parsed document. -/
structure Net where
  NewRequest : String → Option String
  Do : String → Except String Response
  NewDocument : String → Except String String
  Html : String → Except String String

/-- The verb `%d` of `fmt` on an `int`. -/
def formatInt (n : Int) : String := toString n

/-- The function `fetchWebsite`; the Go result `(string, error)` is the pair of the content and
the message of the error (`none` for `nil`). -/
def fetchWebsite (net : Net) (url : String) : String × Option String :=
  let url := requestTarget url
  match net.NewRequest url with
  | some err => ("", some ("创建请求失败: " ++ err))
  | none =>
    match net.Do url with
    | .error err => ("", some ("请求失败: " ++ err))
    | .ok resp =>
      if resp.StatusCode ≠ 200 then ("", some ("状态码错误: " ++ formatInt resp.StatusCode))
      else
        match net.NewDocument resp.Body with
        | .error err => ("", some ("解析HTML失败: " ++ err))
        | .ok doc =>
          match net.Html doc with
          | .error err => ("", some ("获取HTML内容失败: " ++ err))
          | .ok html => (html, none)

/-- A network for examples: the request is built and answered with the given status code and
body, and the body parses to itself. -/
def exampleNet (status : Int) (body : String) : Net :=
  { NewRequest := fun _ => none,
    Do := fun _ => Except.ok { StatusCode := status, Body := body },
    NewDocument := fun b => Except.ok b,
    Html := fun d => Except.ok d }

/-! ## `processWebsites` (lines 134-177) -/

/-- Effects of one goroutine of `processWebsites`, in the order they happen. The two deferred
calls run last, `<-semaphore` before `wg.Done()`. -/
inductive Event where
  | fetch (url : String)
  | setError (msg : String)
  | setMatchResult (v : Int)
  | sleep (d : Nat)
  | releaseSemaphore
  | wgDone
  deriving DecidableEq, Repr

/-- Body of the goroutine started for one record (lines 145-172): the record as the goroutine
leaves it and the trace of its effects. -/
def worker (lower : Char → Char) (kws : List String) (net : Net) (record : WebsiteRecord) :
    WebsiteRecord × List Event :=
  match fetchWebsite net record.MediaURL with
  | (_, some err) =>
    ({ record with Error := err, MatchResult := 0 },
      [Event.fetch record.MediaURL, Event.setError err, Event.setMatchResult 0,
        Event.releaseSemaphore, Event.wgDone])
  | (html, none) =>
    if containsKeywords lower kws html then
      ({ record with MatchResult := 1 },
        [Event.fetch record.MediaURL, Event.setMatchResult 1, Event.sleep requestInterval,
          Event.releaseSemaphore, Event.wgDone])
    else
      ({ record with MatchResult := 0 },
        [Event.fetch record.MediaURL, Event.setMatchResult 0, Event.sleep requestInterval,
          Event.releaseSemaphore, Event.wgDone])

/-- Goroutine `i` run on the shared slice: it writes through `&records[i]` only. -/
def runWorker (lower : Char → Char) (kws : List String) (net : Nat → Net)
    (records : List WebsiteRecord) (i : Nat) : List WebsiteRecord :=
  match records[i]? with
  | none => records
  | some record => records.set i (worker lower kws (net i) record).1

/-- The function `processWebsites`: one goroutine per index, `net i` being the network as
goroutine `i` meets it. The goroutines finish in an order the scheduler chooses; `order` is
that order, a permutation of the indices. -/
def processWebsites (lower : Char → Char) (kws : List String) (net : Nat → Net)
    (order : List Nat) (records : List WebsiteRecord) : List WebsiteRecord :=
  order.foldl (runWorker lower kws net) records

/-! ### The semaphore of `processWebsites` as a transition system -/

/-- Position of the goroutine running `processWebsites`. -/
inductive MainPc where
  | acquire
  | spawn
  | wait
  | returned
  deriving DecidableEq, Repr

/-- State of the worker pool. `semaphore` is the number of values buffered in the channel,
`wg` the counter of the wait group, `running` the goroutines started by `go func` whose
deferred `<-semaphore` has not run yet, `released` those between `<-semaphore` and
`wg.Done()`. -/
structure PoolState where
  i : Nat
  pc : MainPc
  semaphore : Nat
  wg : Nat
  running : List Nat
  released : List Nat
  deriving DecidableEq, Repr

/-- One scheduling decision: the main goroutine moves, or goroutine `j` runs its deferred
`<-semaphore`, or goroutine `j` runs its deferred `wg.Done()`. -/
inductive Action where
  | main
  | release (j : Nat)
  | done (j : Nat)
  deriving DecidableEq, Repr

/-- State at the start of the `for i := range records` loop. -/
def PoolState.init : PoolState :=
  { i := 0, pc := MainPc.acquire, semaphore := 0, wg := 0, running := [], released := [] }

/-- One step of the pool over `n` records; `none` when the chosen goroutine is blocked or does
not exist. The send `semaphore <- struct{}{}` blocks while the channel of capacity
`maxConcurrent` is full, `wg.Wait()` blocks while the counter is positive. -/
def poolStep (n : Nat) (s : PoolState) : Action → Option PoolState
  | Action.main =>
    match s.pc with
    | MainPc.acquire =>
      if s.i < n then
        if s.semaphore < maxConcurrent then
          some { s with wg := s.wg + 1, semaphore := s.semaphore + 1, pc := MainPc.spawn }
        else none
      else some { s with pc := MainPc.wait }
    | MainPc.spawn =>
      some { s with running := s.i :: s.running, i := s.i + 1, pc := MainPc.acquire }
    | MainPc.wait => if s.wg = 0 then some { s with pc := MainPc.returned } else none
    | MainPc.returned => none
  | Action.release j =>
    if j ∈ s.running ∧ 0 < s.semaphore then
      some { s with running := s.running.erase j, semaphore := s.semaphore - 1,
                    released := j :: s.released }
    else none
  | Action.done j =>
    if j ∈ s.released then some { s with released := s.released.erase j, wg := s.wg - 1 }
    else none

/-- Run a schedule from a state. -/
def poolRun (n : Nat) : PoolState → List Action → Option PoolState
  | s, [] => some s
  | s, a :: schedule =>
    match poolStep n s a with
    | none => none
    | some t => poolRun n t schedule

/-- Invariant of the pool: every goroutine that has not released holds one value of the
channel, the main goroutine holds one more between its send and `go func`, and the channel
never holds more than its capacity. -/
def PoolInv (n : Nat) (s : PoolState) : Prop :=
  s.running.length + (if s.pc = MainPc.spawn then 1 else 0) = s.semaphore ∧
  s.semaphore ≤ maxConcurrent ∧
  ((s.pc = MainPc.wait ∨ s.pc = MainPc.returned) → n ≤ s.i)

/-! ## `readExcelFile` (lines 60-132)

The table `rows` is what `f.GetRows` returns for the first sheet: `rows[i]` holds the cells of
sheet row `i + 1`, each row as long as its last cell with a value. Opening the file and
choosing the sheet are outside the table and are not modelled. -/

/-- The header search (lines 92-100): index of the first cell of the header that lower-cases
to `media_url`, counted from `i`, or `-1`. -/
def findMediaURLCol (lower : Char → Char) : List String → Int → Int
  | [], _ => -1
  | cell :: rest, i =>
    if ToLower lower cell = "media_url" then i
    else findMediaURLCol lower rest (i + 1)

/-- The data loop (lines 110-128) over the rows from index `i` on; `records` is the slice
built so far. -/
def readLoop (isSpace : Char → Bool) (mediaURLColIndex : Int) :
    List (List String) → Int → List WebsiteRecord → List WebsiteRecord
  | [], _, records => records
  | row :: rest, i, records =>
    if (row.length : Int) ≤ mediaURLColIndex then
      readLoop isSpace mediaURLColIndex rest (i + 1) records
    else
      let mediaURL := TrimSpace isSpace (row.getD mediaURLColIndex.toNat "")
      if mediaURL = "" then readLoop isSpace mediaURLColIndex rest (i + 1) records
      else
        readLoop isSpace mediaURLColIndex rest (i + 1)
          (records ++ [{ MediaURL := mediaURL, MatchResult := 0, RowIndex := i + 1, Error := "" }])

/-- The function `readExcelFile` on the table of rows of the first sheet. -/
def readExcelFile (lower : Char → Char) (isSpace : Char → Bool) (rows : List (List String)) :
    Except String (List WebsiteRecord) :=
  if rows.length = 0 then Except.error "工作表为空"
  else
    let mediaURLColIndex := findMediaURLCol lower (rows.headD []) 0
    if mediaURLColIndex = -1 then Except.error "未找到'media_url'列"
    else Except.ok (readLoop isSpace mediaURLColIndex (rows.drop 1) 1 [])

/-! ## `exportToExcel` (lines 245-322) -/

/-- A value passed to `SetCellValue`. -/
inductive CellValue where
  | str (s : String)
  | int (n : Int)
  deriving DecidableEq, Repr

/-- The constant `excelize.MaxColumns`. -/
def MaxColumns : Nat := 16384

/-- The letter loop of `excelize.ColumnNumberToName`; `fuel` bounds its iterations. -/
def columnLetters : Nat → Nat → List Char → List Char
  | 0, _, col => col
  | fuel + 1, num, col =>
    if num = 0 then col
    else columnLetters fuel ((num - 1) / 26) (Char.ofNat ((num - 1) % 26 + 65) :: col)

/-- The message of `excelize.ErrColumnNumber`. -/
def ErrColumnNumber : String :=
  "the column number must be greater than or equal to 1 and less than or equal to 16384"

/-- The function `excelize.ColumnNumberToName`: `1` is `A`, `26` is `Z`, `27` is `AA`; a
number outside `1 .. MaxColumns` gives `ErrColumnNumber`. -/
def ColumnNumberToName (num : Nat) : Except String String :=
  if num < 1 ∨ MaxColumns < num then Except.error ErrColumnNumber
  else Except.ok (String.mk (columnLetters num num []))

/-- Name of the cell in column `col` and row `row`, both counted from 1. -/
def cellName (col row : Nat) : Option String :=
  match ColumnNumberToName col with
  | Except.error _ => none
  | Except.ok name => some (name ++ toString row)

/-- Value the table has in column `col` of row `row`, both counted from 1. -/
def originalCell (rows : List (List String)) (col row : Nat) : Option String :=
  if col = 0 ∨ row = 0 then none
  else (rows.getD (row - 1) [])[col - 1]?

/-- The two `SetCellValue` calls of one iteration of the loop at lines 291-308. -/
def recordWrites (matchColName errorColName : String) (record : WebsiteRecord) :
    List (String × CellValue) :=
  [(matchColName ++ formatInt record.RowIndex, CellValue.int record.MatchResult),
   (errorColName ++ formatInt record.RowIndex, CellValue.str record.Error)]

/-- The function `exportToExcel` on the table of rows of the first sheet: the `SetCellValue`
calls it makes, cell name and value, in order. Indexing `rows[0]` in an empty table panics. -/
def exportToExcel (rows : List (List String)) (records : List WebsiteRecord) :
    Except String (List (String × CellValue)) :=
  match rows with
  | [] => Except.error "panic: index out of range"
  | header :: _ =>
    let lastColIndex := header.length
    match ColumnNumberToName (lastColIndex + 1) with
    | Except.error err => Except.error ("列索引转换失败: " ++ err)
    | Except.ok matchColName =>
      match ColumnNumberToName (lastColIndex + 2) with
      | Except.error err => Except.error ("列索引转换失败: " ++ err)
      | Except.ok errorColName =>
        Except.ok
          ([(matchColName ++ "1", CellValue.str "match_result"),
            (errorColName ++ "1", CellValue.str "error_msg")] ++
            records.flatMap (recordWrites matchColName errorColName))

/-! # Theorems -/

/-! ## Strings -/

theorem string_eq_of_data {s t : String} (h : s.data = t.data) : s = t := by
  cases s; cases t; simp_all

theorem containsChars_iff (s sub : List Char) : containsChars s sub = true ↔ sub <:+: s := by
  induction s with
  | nil => simp [containsChars, List.infix_nil]
  | cons c s ih =>
    simp only [containsChars, Bool.or_eq_true, ih, List.infix_cons_iff, List.isPrefixOf_iff_prefix]

theorem Contains_iff (s sub : String) : Contains s sub = true ↔ IsSubstring sub s := by
  unfold Contains IsSubstring
  rw [containsChars_iff]
  constructor
  · rintro ⟨a, b, h⟩
    refine ⟨String.mk a, String.mk b, string_eq_of_data ?_⟩
    simp [String.data_append, h]
  · rintro ⟨a, b, h⟩
    refine ⟨a.data, b.data, ?_⟩
    rw [h]; simp [String.data_append]

theorem HasPrefix_iff (s pre : String) : HasPrefix s pre = true ↔ ∃ rest : String, s = pre ++ rest := by
  unfold HasPrefix
  rw [List.isPrefixOf_iff_prefix]
  constructor
  · rintro ⟨t, h⟩
    exact ⟨String.mk t, string_eq_of_data (by simp [String.data_append, h])⟩
  · rintro ⟨t, h⟩
    exact ⟨t.data, by rw [h]; simp [String.data_append]⟩

theorem containsKeywordsLoop_iff (lower : Char → Char) (htmlLower : String) (kws : List String) :
    containsKeywordsLoop lower htmlLower kws = true ↔
      ∃ keyword ∈ kws, Contains htmlLower (ToLower lower keyword) = true := by
  induction kws with
  | nil => simp [containsKeywordsLoop]
  | cons k rest ih =>
    unfold containsKeywordsLoop
    by_cases h : Contains htmlLower (ToLower lower k) = true
    · simp [h]
    · simp [h, ih]

/-- C1: `containsKeywords` returns true exactly when the lower-cased content contains the
lower-cased form of at least one keyword of the list as a substring. -/
theorem containsKeywords_iff_substring (lower : Char → Char) (kws : List String) (html : String) :
    containsKeywords lower kws html = true ↔
      ∃ keyword ∈ kws, IsSubstring (ToLower lower keyword) (ToLower lower html) := by
  unfold containsKeywords
  simp only [containsKeywordsLoop_iff, Contains_iff]

/-- C9, as stated, fails: with an empty keyword in the list the empty content matches. -/
theorem containsKeywords_empty_content_counterexample :
    containsKeywords asciiLower [""] "" = true := by
  decide

theorem Contains_empty_left (sub : String) (h : sub ≠ "") : Contains "" sub = false := by
  unfold Contains
  have hd : sub.data ≠ [] := fun hd => h (string_eq_of_data (by simpa using hd))
  cases hs : sub.data with
  | nil => exact absurd hs hd
  | cons c t => simp [containsChars, List.isPrefixOf]

theorem ToLower_ne_empty (lower : Char → Char) (s : String) (h : s ≠ "") : ToLower lower s ≠ "" := by
  intro hl
  apply h
  apply string_eq_of_data
  have : (ToLower lower s).data = [] := by rw [hl]
  simpa [ToLower] using this

/-- C9 (amended): when no keyword of the list is the empty string, `containsKeywords` returns
false on the empty content. -/
theorem containsKeywords_empty_content (lower : Char → Char) (kws : List String)
    (hkws : ∀ keyword ∈ kws, keyword ≠ "") : containsKeywords lower kws "" = false := by
  rw [Bool.eq_false_iff]
  intro h
  unfold containsKeywords at h
  rw [containsKeywordsLoop_iff] at h
  obtain ⟨k, hk, hc⟩ := h
  have he : ToLower lower "" = "" := rfl
  rw [he, Contains_empty_left _ (ToLower_ne_empty lower k (hkws k hk))] at hc
  exact Bool.noConfusion hc

/-- C9 (amended), at the keyword list of the program. -/
theorem containsKeywords_empty_content_witness :
    (∀ keyword ∈ keywords, keyword ≠ "") ∧ containsKeywords asciiLower keywords "" = false :=
  ⟨by decide, containsKeywords_empty_content asciiLower keywords (by decide)⟩

/-- C3: the request target of `fetchWebsite` is the URL itself when it starts with `http://` or
`https://` and `http://` followed by the URL otherwise; it always starts with one of the two
prefixes, and `example.com` gives `http://example.com`. -/
theorem requestTarget_scheme (u : String) :
    (((∃ rest, u = "http://" ++ rest) ∨ (∃ rest, u = "https://" ++ rest)) → requestTarget u = u) ∧
    (¬ ((∃ rest, u = "http://" ++ rest) ∨ (∃ rest, u = "https://" ++ rest)) →
      requestTarget u = "http://" ++ u) ∧
    ((∃ rest, requestTarget u = "http://" ++ rest) ∨
      (∃ rest, requestTarget u = "https://" ++ rest)) ∧
    requestTarget "example.com" = "http://example.com" := by
  simp only [← HasPrefix_iff]
  unfold requestTarget
  refine ⟨?_, ?_, ?_, by decide⟩
  · rintro (h | h) <;> simp [h]
  · intro h
    rw [not_or] at h
    simp [h.1, h.2]
  · by_cases h1 : HasPrefix u "http://" = true
    · simp [h1]
    · by_cases h2 : HasPrefix u "https://" = true
      · simp [h2]
      · simp only [h1, h2, Bool.not_false, Bool.and_self, if_true]
        left
        rw [HasPrefix_iff]
        exact ⟨u, rfl⟩

/-- C3 at concrete URLs: a URL with the `https://` prefix is its own target. -/
theorem requestTarget_scheme_witness :
    requestTarget "https://example.com" = "https://example.com" :=
  (requestTarget_scheme "https://example.com").1 (Or.inr ⟨"example.com", by decide⟩)

/-! ## `fetchWebsite` -/

/-- C8: a response whose status code is not 200 makes `fetchWebsite` return an error naming the
status code and no content; content, and a nil error, come only from a response with status
200. -/
theorem fetchWebsite_status (net : Net) (url : String) :
    (∀ resp, net.NewRequest (requestTarget url) = none →
      net.Do (requestTarget url) = Except.ok resp → resp.StatusCode ≠ 200 →
      fetchWebsite net url = ("", some ("状态码错误: " ++ formatInt resp.StatusCode))) ∧
    ((fetchWebsite net url).2 = none →
      ∃ resp, net.Do (requestTarget url) = Except.ok resp ∧ resp.StatusCode = 200) ∧
    ((fetchWebsite net url).1 ≠ "" →
      ∃ resp, net.Do (requestTarget url) = Except.ok resp ∧ resp.StatusCode = 200) := by
  refine ⟨?_, ?_, ?_⟩
  · intro resp h1 h2 h3
    simp [fetchWebsite, h1, h2, h3]
  all_goals
    cases h1 : net.NewRequest (requestTarget url) with
    | some e => simp [fetchWebsite, h1]
    | none =>
      cases h2 : net.Do (requestTarget url) with
      | error e => simp [fetchWebsite, h1, h2]
      | ok resp =>
        by_cases h3 : resp.StatusCode = 200
        · simp [h3]
        · simp [fetchWebsite, h1, h2, h3]

/-- C8 at a concrete response: status 404 gives the error `状态码错误: 404` and no content. -/
theorem fetchWebsite_status_witness :
    fetchWebsite (exampleNet 404 "<html></html>") "example.com" = ("", some "状态码错误: 404") :=
  (fetchWebsite_status (exampleNet 404 "<html></html>") "example.com").1
    { StatusCode := 404, Body := "<html></html>" } rfl rfl (by decide)

/-! ## `processWebsites` -/

theorem worker_fst (lower : Char → Char) (kws : List String) (net : Net) (r : WebsiteRecord) :
    (worker lower kws net r).1 =
      match fetchWebsite net r.MediaURL with
      | (_, some err) => { r with Error := err, MatchResult := 0 }
      | (html, none) =>
        { r with MatchResult := if containsKeywords lower kws html then 1 else 0 } := by
  unfold worker
  rcases hf : fetchWebsite net r.MediaURL with ⟨html, _ | err⟩
  · by_cases hc : containsKeywords lower kws html = true <;> simp [hc]
  · simp

theorem runWorker_getElem? (lower : Char → Char) (kws : List String) (net : Nat → Net)
    (records : List WebsiteRecord) (j i : Nat) :
    (runWorker lower kws net records j)[i]? =
      if i = j then records[i]?.map (fun r => (worker lower kws (net i) r).1)
      else records[i]? := by
  unfold runWorker
  cases hj : records[j]? with
  | none =>
    by_cases hij : i = j
    · subst hij; simp [hj]
    · simp [hij]
  | some r =>
    by_cases hij : i = j
    · subst hij
      have hlt : i < records.length := by
        rcases Nat.lt_or_ge i records.length with h | h
        · exact h
        · rw [List.getElem?_eq_none h] at hj; cases hj
      simp [hj, List.getElem?_set_self, hlt]
    · simp [hij, List.getElem?_set_ne (Ne.symm hij)]

theorem processWebsites_getElem?_of_nodup (lower : Char → Char) (kws : List String)
    (net : Nat → Net) (order : List Nat) (hnd : order.Nodup) (records : List WebsiteRecord)
    (i : Nat) :
    (processWebsites lower kws net order records)[i]? =
      if i ∈ order then records[i]?.map (fun r => (worker lower kws (net i) r).1)
      else records[i]? := by
  induction order generalizing records with
  | nil => simp [processWebsites]
  | cons j order ih =>
    have hj : j ∉ order := (List.nodup_cons.mp hnd).1
    have step : processWebsites lower kws net (j :: order) records =
        processWebsites lower kws net order (runWorker lower kws net records j) := rfl
    rw [step, ih (List.nodup_cons.mp hnd).2, runWorker_getElem?]
    by_cases hij : i = j
    · subst hij; simp [hj]
    · simp [hij]

theorem processWebsites_getElem? (lower : Char → Char) (kws : List String)
    (net : Nat → Net) (order : List Nat) (records : List WebsiteRecord)
    (horder : order.Perm (List.range records.length)) (i : Nat) :
    (processWebsites lower kws net order records)[i]? =
      records[i]?.map (fun r => (worker lower kws (net i) r).1) := by
  rw [processWebsites_getElem?_of_nodup lower kws net order
    (horder.nodup_iff.mpr (List.nodup_range _))]
  by_cases hi : i ∈ order
  · simp [hi]
  · have : records.length ≤ i := by
      have := fun h => hi (horder.mem_iff.mpr h)
      simpa [List.mem_range] using this
    simp [hi, List.getElem?_eq_none this]

theorem readLoop_error_empty (isSpace : Char → Bool) (col : Int) (rows : List (List String))
    (i : Int) (acc : List WebsiteRecord) (hacc : ∀ r ∈ acc, r.Error = "") :
    ∀ r ∈ readLoop isSpace col rows i acc, r.Error = "" := by
  induction rows generalizing i acc with
  | nil => simpa [readLoop] using hacc
  | cons row rest ih =>
    simp only [readLoop]
    split
    · exact ih _ _ hacc
    · split
      · exact ih _ _ hacc
      · apply ih
        intro r hr
        rcases List.mem_append.mp hr with h | h
        · exact hacc r h
        · rw [List.mem_singleton] at h
          rw [h]

theorem readExcelFile_error_empty (lower : Char → Char) (isSpace : Char → Bool)
    (rows : List (List String)) (records : List WebsiteRecord)
    (h : readExcelFile lower isSpace rows = Except.ok records) :
    ∀ r ∈ records, r.Error = "" := by
  unfold readExcelFile at h
  split at h
  · cases h
  · simp only at h
    split at h
    · cases h
    · cases h
      exact readLoop_error_empty isSpace _ _ _ [] (by simp)

/-- C2: after `processWebsites`, whatever order the goroutines finish in, a record whose fetch
succeeded has MatchResult 1 or 0 as `containsKeywords` decides on the fetched content and
its Error untouched; a record whose fetch failed has the message of the fetch error as Error
and MatchResult 0. So MatchResult is 0 or 1, and a record that started with an empty Error, as
every record loaded by `readExcelFile` does, and ends with a non-empty one has MatchResult 0. -/
theorem processWebsites_result (lower : Char → Char) (kws : List String) (net : Nat → Net)
    (order : List Nat) (records : List WebsiteRecord)
    (horder : order.Perm (List.range records.length))
    (i : Nat) (r : WebsiteRecord) (hr : records[i]? = some r) :
    ∃ r', (processWebsites lower kws net order records)[i]? = some r' ∧
      (∀ html, fetchWebsite (net i) r.MediaURL = (html, none) →
        r'.MatchResult = (if containsKeywords lower kws html then 1 else 0) ∧
        r'.Error = r.Error) ∧
      (∀ content err, fetchWebsite (net i) r.MediaURL = (content, some err) →
        r'.Error = err ∧ r'.MatchResult = 0) ∧
      (r'.MatchResult = 0 ∨ r'.MatchResult = 1) ∧
      (r.Error = "" → r'.Error ≠ "" → r'.MatchResult = 0) ∧
      (∀ (isSpace : Char → Bool) (rows : List (List String)),
        readExcelFile lower isSpace rows = Except.ok records →
        r.Error = "" ∧ (r'.Error ≠ "" → r'.MatchResult = 0)) := by
  have hempty : r.Error = "" → (worker lower kws (net i) r).1.Error ≠ "" →
      (worker lower kws (net i) r).1.MatchResult = 0 := by
    intro h0 hne
    rw [worker_fst] at hne ⊢
    rcases hf : fetchWebsite (net i) r.MediaURL with ⟨html, _ | err⟩
    · rw [hf] at hne
      exact absurd h0 hne
    · rfl
  refine ⟨(worker lower kws (net i) r).1, ?_, ?_, ?_, ?_, hempty, ?_⟩
  · rw [processWebsites_getElem? lower kws net order records horder, hr]; rfl
  · intro html hf
    rw [worker_fst, hf]
    exact ⟨rfl, rfl⟩
  · intro content err hf
    rw [worker_fst, hf]
    exact ⟨rfl, rfl⟩
  · rw [worker_fst]
    rcases hf : fetchWebsite (net i) r.MediaURL with ⟨html, _ | err⟩
    · by_cases hc : containsKeywords lower kws html = true <;> simp [hc]
    · simp
  · intro isSpace rows hload
    have h0 : r.Error = "" :=
      readExcelFile_error_empty lower isSpace rows records hload r (List.mem_iff_getElem?.mpr ⟨i, hr⟩)
    exact ⟨h0, hempty h0⟩

/-- C2 at a concrete run: two loaded records, the first page holds the keyword, the second
fetch is answered with status 500, and the second goroutine finishes first. -/
theorem processWebsites_result_witness :
    processWebsites asciiLower ["keyword1"]
        (fun i => if i = 0 then exampleNet 200 "<html>KEYWORD1 present</html>"
          else exampleNet 500 "")
        [1, 0] [⟨"a.com", 0, 2, ""⟩, ⟨"b.com", 0, 3, ""⟩] =
      [⟨"a.com", 1, 2, ""⟩, ⟨"b.com", 0, 3, "状态码错误: 500"⟩] ∧
    ∃ r', (processWebsites asciiLower ["keyword1"]
        (fun i => if i = 0 then exampleNet 200 "<html>KEYWORD1 present</html>"
          else exampleNet 500 "")
        [1, 0] [⟨"a.com", 0, 2, ""⟩, ⟨"b.com", 0, 3, ""⟩])[1]? = some r' ∧
      (r'.MatchResult = 0 ∨ r'.MatchResult = 1) :=
  ⟨by decide,
    let ⟨r', h, _, _, h01, _, _⟩ := processWebsites_result asciiLower ["keyword1"]
      (fun i => if i = 0 then exampleNet 200 "<html>KEYWORD1 present</html>"
        else exampleNet 500 "")
      [1, 0] [⟨"a.com", 0, 2, ""⟩, ⟨"b.com", 0, 3, ""⟩] (by decide) 1 ⟨"b.com", 0, 3, ""⟩ rfl
    ⟨r', h, h01⟩⟩

/-- C7, as stated, fails: two records with the same URL and the same fetch outcome (status
200, no keyword) end with different Error values, because a successful fetch leaves Error as
it was. -/
theorem processWebsites_error_counterexample :
    fetchWebsite (exampleNet 200 "") (WebsiteRecord.MediaURL ⟨"a.com", 0, 2, "old"⟩) =
      fetchWebsite (exampleNet 200 "") (WebsiteRecord.MediaURL ⟨"a.com", 0, 2, ""⟩) ∧
    processWebsites asciiLower keywords (fun _ => exampleNet 200 "") [0]
      [⟨"a.com", 0, 2, "old"⟩] = [⟨"a.com", 0, 2, "old"⟩] ∧
    processWebsites asciiLower keywords (fun _ => exampleNet 200 "") [0]
      [⟨"a.com", 0, 2, ""⟩] = [⟨"a.com", 0, 2, ""⟩] := by
  decide

/-- C7 (amended): `processWebsites` keeps the number and order of the records and the MediaURL
and RowIndex of each. The final MatchResult of a record depends only on the outcome of its own
fetch, and its final Error only on that outcome and on the Error the record had before: two
runs, over any two lists, networks and finishing orders, give the same MatchResult wherever
the fetch outcomes agree, and the same Error when moreover the Error values before agree, as
they do for any two records loaded by `readExcelFile`. -/
theorem processWebsites_frame (lower : Char → Char) (kws : List String) (net : Nat → Net)
    (order : List Nat) (records : List WebsiteRecord)
    (horder : order.Perm (List.range records.length)) :
    (processWebsites lower kws net order records).length = records.length ∧
    (processWebsites lower kws net order records).map WebsiteRecord.MediaURL =
      records.map WebsiteRecord.MediaURL ∧
    (processWebsites lower kws net order records).map WebsiteRecord.RowIndex =
      records.map WebsiteRecord.RowIndex ∧
    ∀ (net' : Nat → Net) (order' : List Nat) (records' : List WebsiteRecord) (i j : Nat)
      (r r2 : WebsiteRecord), order'.Perm (List.range records'.length) →
      records[i]? = some r → records'[j]? = some r2 →
      fetchWebsite (net i) r.MediaURL = fetchWebsite (net' j) r2.MediaURL →
      ∃ a b, (processWebsites lower kws net order records)[i]? = some a ∧
        (processWebsites lower kws net' order' records')[j]? = some b ∧
        a.MatchResult = b.MatchResult ∧
        (r.Error = r2.Error → a.Error = b.Error) ∧
        (∀ (isSpace isSpace' : Char → Bool) (rows rows' : List (List String)),
          readExcelFile lower isSpace rows = Except.ok records →
          readExcelFile lower isSpace' rows' = Except.ok records' →
          a.Error = b.Error) := by
  have hget := processWebsites_getElem? lower kws net order records horder
  have hurl : ∀ (n : Net) (r : WebsiteRecord), (worker lower kws n r).1.MediaURL = r.MediaURL := by
    intro n r
    rw [worker_fst]
    rcases fetchWebsite n r.MediaURL with ⟨html, _ | err⟩ <;> rfl
  have hrow : ∀ (n : Net) (r : WebsiteRecord), (worker lower kws n r).1.RowIndex = r.RowIndex := by
    intro n r
    rw [worker_fst]
    rcases fetchWebsite n r.MediaURL with ⟨html, _ | err⟩ <;> rfl
  have hlen : (processWebsites lower kws net order records).length = records.length := by
    rcases Nat.lt_trichotomy (processWebsites lower kws net order records).length
      records.length with h | h | h
    · have h1 := hget (processWebsites lower kws net order records).length
      rw [List.getElem?_eq_none (Nat.le_refl _), List.getElem?_eq_getElem h] at h1
      simp at h1
    · exact h
    · have h1 := hget records.length
      rw [List.getElem?_eq_getElem h, List.getElem?_eq_none (Nat.le_refl _)] at h1
      simp at h1
  refine ⟨hlen, ?_, ?_, ?_⟩
  · apply List.ext_getElem?
    intro k
    rw [List.getElem?_map, List.getElem?_map, hget k]
    cases records[k]? with
    | none => rfl
    | some r => simp [hurl]
  · apply List.ext_getElem?
    intro k
    rw [List.getElem?_map, List.getElem?_map, hget k]
    cases records[k]? with
    | none => rfl
    | some r => simp [hrow]
  · intro net' order' records' i j r r2 horder' hi hj hf
    have herr : r.Error = r2.Error →
        (worker lower kws (net i) r).1.Error = (worker lower kws (net' j) r2).1.Error := by
      intro he
      rw [worker_fst, worker_fst, hf]
      rcases fetchWebsite (net' j) r2.MediaURL with ⟨html, _ | err⟩
      · exact he
      · rfl
    refine ⟨(worker lower kws (net i) r).1, (worker lower kws (net' j) r2).1, ?_, ?_, ?_,
      herr, ?_⟩
    · rw [hget i, hi]; rfl
    · rw [processWebsites_getElem? lower kws net' order' records' horder' j, hj]; rfl
    · rw [worker_fst, worker_fst, hf]
      rcases fetchWebsite (net' j) r2.MediaURL with ⟨html, _ | err⟩ <;> rfl
    · intro isSpace isSpace' rows rows' hload hload'
      have h1 : r.Error = "" :=
        readExcelFile_error_empty lower isSpace rows records hload r
          (List.mem_iff_getElem?.mpr ⟨i, hi⟩)
      have h2 : r2.Error = "" :=
        readExcelFile_error_empty lower isSpace' rows' records' hload' r2
          (List.mem_iff_getElem?.mpr ⟨j, hj⟩)
      exact herr (h1.trans h2.symm)

/-- C7 (amended) at a concrete pair of runs: `a.com` sits in row 2 of one sheet and in row 5 of
another, its fetch has the same outcome in both runs while the fetches of the other records
and the finishing orders differ; its final MatchResult and Error are the same. -/
theorem processWebsites_frame_witness :
    ∃ a b,
      (processWebsites asciiLower ["keyword1"]
        (fun i => if i = 0 then exampleNet 200 "keyword1" else exampleNet 500 "")
        [1, 0] [⟨"a.com", 0, 2, ""⟩, ⟨"b.com", 0, 3, ""⟩])[0]? = some a ∧
      (processWebsites asciiLower ["keyword1"]
        (fun i => if i = 1 then exampleNet 200 "keyword1" else exampleNet 200 "")
        [0, 1] [⟨"c.com", 0, 2, ""⟩, ⟨"a.com", 0, 5, ""⟩])[1]? = some b ∧
      a.MatchResult = b.MatchResult ∧ a.Error = b.Error :=
  let ⟨a, b, ha, hb, hm, he, _⟩ := (processWebsites_frame asciiLower ["keyword1"]
    (fun i => if i = 0 then exampleNet 200 "keyword1" else exampleNet 500 "")
    [1, 0] [⟨"a.com", 0, 2, ""⟩, ⟨"b.com", 0, 3, ""⟩] (by decide)).2.2.2
    (fun i => if i = 1 then exampleNet 200 "keyword1" else exampleNet 200 "")
    [0, 1] [⟨"c.com", 0, 2, ""⟩, ⟨"a.com", 0, 5, ""⟩] 0 1 ⟨"a.com", 0, 2, ""⟩
    ⟨"a.com", 0, 5, ""⟩ (by decide) rfl rfl (by decide)
  ⟨a, b, ha, hb, hm, he rfl⟩

/-- C6, evaluated where the claim fails: a goroutine whose fetch is answered with status 404
stores the error and MatchResult 0 and runs its deferred `<-semaphore` at once, with no
`time.Sleep(requestInterval)` in between; after a successful fetch the sleep is there. -/
theorem worker_failed_fetch_no_sleep :
    worker asciiLower keywords (exampleNet 404 "") ⟨"example.com", 0, 2, ""⟩ =
      (⟨"example.com", 0, 2, "状态码错误: 404"⟩,
        [Event.fetch "example.com", Event.setError "状态码错误: 404", Event.setMatchResult 0,
          Event.releaseSemaphore, Event.wgDone]) ∧
    worker asciiLower keywords (exampleNet 200 "") ⟨"example.com", 0, 2, ""⟩ =
      (⟨"example.com", 0, 2, ""⟩,
        [Event.fetch "example.com", Event.setMatchResult 0, Event.sleep requestInterval,
          Event.releaseSemaphore, Event.wgDone]) := by
  decide

theorem worker_sleep_iff (lower : Char → Char) (kws : List String) (net : Net)
    (r : WebsiteRecord) :
    Event.sleep requestInterval ∈ (worker lower kws net r).2 ↔
      (fetchWebsite net r.MediaURL).2 = none := by
  unfold worker
  rcases hf : fetchWebsite net r.MediaURL with ⟨html, _ | err⟩
  · by_cases hc : containsKeywords lower kws html = true <;> simp [hc]
  · simp

/-! ## `readExcelFile` -/

theorem findMediaURLCol_spec (lower : Char → Char) (cells : List String) (i : Int)
    (h : ∃ cell ∈ cells, ToLower lower cell = "media_url") :
    ∃ k : Nat, k < cells.length ∧ findMediaURLCol lower cells i = i + k ∧
      ToLower lower (cells.getD k "") = "media_url" ∧
      ∀ j, j < k → ToLower lower (cells.getD j "") ≠ "media_url" := by
  induction cells generalizing i with
  | nil => simp at h
  | cons cell rest ih =>
    by_cases hc : ToLower lower cell = "media_url"
    · refine ⟨0, by simp, by simp [findMediaURLCol, hc], by simpa using hc, ?_⟩
      intro j hj
      omega
    · have h2 : ∃ c ∈ rest, ToLower lower c = "media_url" := by
        obtain ⟨c, hmem, hcm⟩ := h
        rcases List.mem_cons.mp hmem with rfl | hmem
        · exact absurd hcm hc
        · exact ⟨c, hmem, hcm⟩
      obtain ⟨k, hk, hfind, hat, hbefore⟩ := ih (i + 1) h2
      refine ⟨k + 1, by simpa using hk, ?_, by simpa using hat, ?_⟩
      · simp only [findMediaURLCol, hc, if_false, hfind]
        push_cast
        omega
      · intro j hj
        cases j with
        | zero => simpa using hc
        | succ j => simpa using hbefore j (by omega)

theorem readLoop_acc (isSpace : Char → Bool) (col : Int) (rows : List (List String)) (i : Int)
    (acc : List WebsiteRecord) :
    readLoop isSpace col rows i acc = acc ++ readLoop isSpace col rows i [] := by
  induction rows generalizing i acc with
  | nil => simp [readLoop]
  | cons row rest ih =>
    simp only [readLoop]
    split
    · exact ih _ _
    · split
      · exact ih _ _
      · rw [ih, ih (i + 1) ([] ++ _)]
        simp

theorem readLoop_cons (isSpace : Char → Bool) (col : Nat) (row : List String)
    (rest : List (List String)) (i : Int) :
    readLoop isSpace col (row :: rest) i [] =
      (if col < row.length ∧ TrimSpace isSpace (row.getD col "") ≠ "" then
        [⟨TrimSpace isSpace (row.getD col ""), 0, i + 1, ""⟩] else []) ++
      readLoop isSpace col rest (i + 1) [] := by
  simp only [readLoop, Int.toNat_ofNat, Nat.cast_le]
  by_cases h1 : row.length ≤ col
  · have hq : ¬ (col < row.length ∧ TrimSpace isSpace (row.getD col "") ≠ "") := by
      intro hq; omega
    rw [if_pos h1, if_neg hq]
    rfl
  · have h1' : col < row.length := by omega
    rw [if_neg h1]
    by_cases h2 : TrimSpace isSpace (row.getD col "") = ""
    · have hq : ¬ (col < row.length ∧ TrimSpace isSpace (row.getD col "") ≠ "") :=
        fun hq => hq.2 h2
      rw [if_pos h2, if_neg hq]
      rfl
    · rw [if_neg h2, if_pos ⟨h1', h2⟩, readLoop_acc]
      rfl

theorem readLoop_mem (isSpace : Char → Bool) (col : Nat) (rows : List (List String)) (i : Int)
    (r : WebsiteRecord) :
    r ∈ readLoop isSpace col rows i [] ↔
      ∃ (k : Nat) (row : List String), rows[k]? = some row ∧ col < row.length ∧
        TrimSpace isSpace (row.getD col "") ≠ "" ∧
        r = ⟨TrimSpace isSpace (row.getD col ""), 0, i + k + 1, ""⟩ := by
  induction rows generalizing i with
  | nil => simp [readLoop]
  | cons row rest ih =>
    rw [readLoop_cons, List.mem_append, ih]
    constructor
    · rintro (h | ⟨k, row', hk, h1, h2, h3⟩)
      · by_cases hq : col < row.length ∧ TrimSpace isSpace (row.getD col "") ≠ ""
        · rw [if_pos hq, List.mem_singleton] at h
          exact ⟨0, row, by simp, hq.1, hq.2, by simpa using h⟩
        · rw [if_neg hq] at h
          simp at h
      · refine ⟨k + 1, row', by simpa using hk, h1, h2, ?_⟩
        rw [h3]
        congr 1
        push_cast
        omega
    · rintro ⟨k, row', hk, h1, h2, h3⟩
      cases k with
      | zero =>
        left
        simp only [List.getElem?_cons_zero, Option.some.injEq] at hk
        subst hk
        rw [if_pos ⟨h1, h2⟩, List.mem_singleton, h3]
        simp
      | succ k =>
        right
        refine ⟨k, row', by simpa using hk, h1, h2, ?_⟩
        rw [h3]
        congr 1
        push_cast
        omega

theorem readLoop_pairwise (isSpace : Char → Bool) (col : Nat) (rows : List (List String))
    (i : Int) :
    List.Pairwise (fun a b => a < b)
      ((readLoop isSpace col rows i []).map WebsiteRecord.RowIndex) := by
  induction rows generalizing i with
  | nil => simp [readLoop]
  | cons row rest ih =>
    rw [readLoop_cons, List.map_append, List.pairwise_append]
    refine ⟨?_, ih (i + 1), ?_⟩
    · split <;> simp
    · intro a ha b hb
      split at ha
      · simp only [List.map_cons, List.map_nil, List.mem_singleton] at ha
        obtain ⟨r, hr, rfl⟩ := List.mem_map.mp hb
        obtain ⟨k, row', _, _, _, h3⟩ := (readLoop_mem isSpace col rest (i + 1) r).mp hr
        rw [ha, h3]
        simp only
        omega
      · simp at ha

/-- C4: for a table whose header has a cell that lower-cases to `media_url`, `readExcelFile`
returns one record for every data row that has, in the column of the first such header cell, a
cell that is not empty after trimming, and nothing else; the MediaURL is the trimmed cell and
the RowIndex the sheet row number (header 1, first data row 2); the RowIndex values are
strictly increasing along the list, so the records are in row order and no two share a
position. -/
theorem readExcelFile_records (lower : Char → Char) (isSpace : Char → Bool)
    (header : List String) (rest : List (List String))
    (hheader : ∃ cell ∈ header, ToLower lower cell = "media_url") :
    ∃ (col : Nat) (records : List WebsiteRecord),
      readExcelFile lower isSpace (header :: rest) = Except.ok records ∧
      col < header.length ∧ ToLower lower (header.getD col "") = "media_url" ∧
      (∀ j, j < col → ToLower lower (header.getD j "") ≠ "media_url") ∧
      (∀ r, r ∈ records ↔
        ∃ (k : Nat) (row : List String), rest[k]? = some row ∧ col < row.length ∧
          TrimSpace isSpace (row.getD col "") ≠ "" ∧
          r = ⟨TrimSpace isSpace (row.getD col ""), 0, (k : Int) + 2, ""⟩) ∧
      List.Pairwise (fun a b => a < b) (records.map WebsiteRecord.RowIndex) ∧
      (records.map WebsiteRecord.RowIndex).Nodup := by
  obtain ⟨col, hcol, hfind, hat, hbefore⟩ := findMediaURLCol_spec lower header 0 hheader
  have hfind' : findMediaURLCol lower header 0 = (col : Int) := by rw [hfind]; simp
  have hread : readExcelFile lower isSpace (header :: rest) =
      Except.ok (readLoop isSpace col rest 1 []) := by
    have hne : ¬ ((col : Int) = -1) := by omega
    simp [readExcelFile, hfind', hne]
  have hpw := readLoop_pairwise isSpace col rest 1
  refine ⟨col, readLoop isSpace col rest 1 [], hread, hcol, hat, hbefore, ?_, hpw, ?_⟩
  · intro r
    rw [readLoop_mem]
    constructor
    · rintro ⟨k, row, h1, h2, h3, h4⟩
      refine ⟨k, row, h1, h2, h3, ?_⟩
      rw [h4]; congr 1; omega
    · rintro ⟨k, row, h1, h2, h3, h4⟩
      refine ⟨k, row, h1, h2, h3, ?_⟩
      rw [h4]; congr 1; omega
  · exact hpw.imp (fun h => ne_of_lt h)

/-- C4 on a sheet of five rows: the row without the column and the row with a blank cell give no
record. -/
theorem readExcelFile_records_witness :
    readExcelFile asciiLower asciiSpace
        [["id", "Media_URL"], ["1", " a.com "], ["2"], ["3", "  "], ["4", "b.com", "note"]] =
      Except.ok [⟨"a.com", 0, 2, ""⟩, ⟨"b.com", 0, 5, ""⟩] ∧
    ∃ records : List WebsiteRecord,
      readExcelFile asciiLower asciiSpace
        [["id", "Media_URL"], ["1", " a.com "], ["2"], ["3", "  "], ["4", "b.com", "note"]] =
        Except.ok records ∧
      List.Pairwise (fun a b => a < b) (records.map WebsiteRecord.RowIndex) :=
  ⟨by decide,
    let ⟨_, records, h, _, _, _, _, hpw, _⟩ := readExcelFile_records asciiLower asciiSpace
      ["id", "Media_URL"] [["1", " a.com "], ["2"], ["3", "  "], ["4", "b.com", "note"]]
      ⟨"Media_URL", by decide, by decide⟩
    ⟨records, h, hpw⟩⟩

/-! ## `exportToExcel` -/

/-- C5, evaluated where the claim fails: on a sheet whose data row is longer than its header
row, the records that `readExcelFile` loads make `exportToExcel` write the match result to
cell `B2`, which holds the value `note` in the input. -/
theorem exportToExcel_overwrites_longer_row :
    readExcelFile asciiLower asciiSpace [["media_url"], ["a.com", "note"]] =
      Except.ok [⟨"a.com", 0, 2, ""⟩] ∧
    exportToExcel [["media_url"], ["a.com", "note"]] [⟨"a.com", 0, 2, ""⟩] =
      Except.ok [("B1", CellValue.str "match_result"), ("C1", CellValue.str "error_msg"),
        ("B2", CellValue.int 0), ("C2", CellValue.str "")] ∧
    cellName 2 2 = some "B2" ∧
    originalCell [["media_url"], ["a.com", "note"]] 2 2 = some "note" := by
  decide

/-! ## The semaphore -/

theorem poolInv_init (n : Nat) : PoolInv n PoolState.init := by
  simp [PoolInv, PoolState.init]

theorem poolInv_step (n : Nat) (s t : PoolState) (a : Action) (hs : PoolInv n s)
    (h : poolStep n s a = some t) : PoolInv n t := by
  obtain ⟨h1, h2, h3⟩ := hs
  cases a with
  | main =>
    simp only [poolStep] at h
    cases hpc : s.pc with
    | acquire =>
      rw [hpc] at h
      simp only at h
      by_cases hi : s.i < n
      · by_cases hsem : s.semaphore < maxConcurrent
        · simp only [hi, hsem, if_true, Option.some.injEq] at h
          subst h
          simp [PoolInv, hpc] at h1 ⊢
          omega
        · simp [hi, hsem] at h
      · simp only [hi, if_false, Option.some.injEq] at h
        subst h
        simp [PoolInv, hpc] at h1 ⊢
        omega
    | spawn =>
      rw [hpc] at h
      simp only [Option.some.injEq] at h
      subst h
      simp [PoolInv, hpc] at h1 ⊢
      omega
    | wait =>
      rw [hpc] at h
      simp only at h
      by_cases hwg : s.wg = 0
      · simp only [hwg, if_true, Option.some.injEq] at h
        subst h
        simp [PoolInv, hpc] at h1 h3 ⊢
        omega
      · simp [hwg] at h
    | returned =>
      rw [hpc] at h
      simp at h
  | release j =>
    simp only [poolStep] at h
    by_cases hj : j ∈ s.running ∧ 0 < s.semaphore
    · simp only [hj, and_self, if_true, Option.some.injEq] at h
      subst h
      have hlen := List.length_erase_of_mem hj.1
      have hpos : 0 < s.running.length := List.length_pos_of_mem hj.1
      refine ⟨?_, ?_, h3⟩
      · simp only [hlen]
        omega
      · simp only
        omega
    · simp [hj] at h
  | done j =>
    simp only [poolStep] at h
    by_cases hj : j ∈ s.released
    · simp only [hj, if_true, Option.some.injEq] at h
      subst h
      exact ⟨h1, h2, h3⟩
    · simp [hj] at h

theorem poolInv_run (n : Nat) (schedule : List Action) (s t : PoolState) (hs : PoolInv n s)
    (h : poolRun n s schedule = some t) : PoolInv n t := by
  induction schedule generalizing s with
  | nil =>
    simp only [poolRun, Option.some.injEq] at h
    subst h
    exact hs
  | cons a schedule ih =>
    simp only [poolRun] at h
    cases hstep : poolStep n s a with
    | none => rw [hstep] at h; simp at h
    | some u =>
      rw [hstep] at h
      exact ih u (poolInv_step n s u a hs hstep) h

/-- C10: in every state the pool reaches, under every schedule, at most `maxConcurrent` (5)
goroutines are between their start and their release of the semaphore; and while five are,
the main goroutine cannot move on to the next record before one of them releases. -/
theorem pool_at_most_maxConcurrent (n : Nat) (schedule : List Action) (s : PoolState)
    (h : poolRun n PoolState.init schedule = some s) :
    s.running.length ≤ maxConcurrent ∧
    (s.running.length = maxConcurrent → s.i < n → poolStep n s Action.main = none) := by
  obtain ⟨h1, h2, h3⟩ := poolInv_run n schedule PoolState.init s (poolInv_init n) h
  have hmax : maxConcurrent = 5 := rfl
  refine ⟨by omega, ?_⟩
  intro h5 hi
  have hsem : ¬ s.semaphore < maxConcurrent := by omega
  cases hpc : s.pc with
  | acquire => simp [poolStep, hpc, hi, hsem]
  | spawn => simp [hpc] at h1; omega
  | wait => have := h3 (Or.inl hpc); omega
  | returned => have := h3 (Or.inr hpc); omega

/-- C10 on a run over seven records: after five goroutines have started the pool holds five
running goroutines and the sixth send blocks. -/
theorem pool_at_most_maxConcurrent_witness :
    poolRun 7 PoolState.init (List.replicate 10 Action.main) =
      some ⟨5, MainPc.acquire, 5, 5, [4, 3, 2, 1, 0], []⟩ ∧
    [4, 3, 2, 1, 0].length ≤ maxConcurrent ∧
    poolStep 7 ⟨5, MainPc.acquire, 5, 5, [4, 3, 2, 1, 0], []⟩ Action.main = none :=
  ⟨by decide,
    (pool_at_most_maxConcurrent 7 (List.replicate 10 Action.main)
      ⟨5, MainPc.acquire, 5, 5, [4, 3, 2, 1, 0], []⟩ (by decide)).1,
    (pool_at_most_maxConcurrent 7 (List.replicate 10 Action.main)
      ⟨5, MainPc.acquire, 5, 5, [4, 3, 2, 1, 0], []⟩ (by decide)).2 rfl (by decide)⟩

end WebsiteKeyword
